import Mathlib

/-!
Verification development for the `bp-automation` repository.

Strings from the JavaScript source are modelled as `List Char` (sequences of
Unicode code points; every character appearing in the claims and in the
transcoding tables lies in the Basic Multilingual Plane, where JavaScript
UTF-16 code units and code points coincide).  JavaScript's
`String.prototype.split(find).join(replace)` (the source's `replaceAll`) and
`String.prototype.replace` with a string pattern are modelled by the
structurally recursive scanners below.  The regex-driven repositioning loops
of `krutidevToUnicode` are modelled step by step, fuelled: a loop that never
terminates is modelled as returning `none` for every fuel.
-/

namespace BPAuto

/-- One reduction step of JavaScript `str.split(find).join(replace)`:
scan left to right, replacing every non-overlapping occurrence of
`f0 :: fs`, fuelled by the length of the input (one unit per consumed
character, which is always enough). -/
def replaceCoreF (f0 : Char) (fs rep : List Char) : Nat → List Char → List Char
  | _, [] => []
  | 0, t => t
  | fuel + 1, a :: rest =>
    if f0 = a ∧ fs.isPrefixOf rest then
      rep ++ replaceCoreF f0 fs rep fuel (rest.drop fs.length)
    else
      a :: replaceCoreF f0 fs rep fuel rest

/-- Model of the source's `replaceAll(str, find, replace)`:
`if (!find) return str; return str.split(find).join(replace)`. -/
def replaceAll (t find rep : List Char) : List Char :=
  match find with
  | [] => t
  | f0 :: fs => replaceCoreF f0 fs rep t.length t

/-- Split `t` at the first occurrence of the character `x`:
returns `(before, after)` with `t = before ++ x :: after` and `x ∉ before`. -/
def breakAtChar (x : Char) : List Char → Option (List Char × List Char)
  | [] => none
  | a :: rest =>
    if a = x then some ([], rest)
    else (breakAtChar x rest).map (fun p => (a :: p.1, p.2))

/-- Split `t` at the first occurrence of the substring `pat`:
returns `(before, after)` with `t = before ++ pat ++ after`, `before` minimal. -/
def breakAtSub (pat : List Char) : List Char → Option (List Char × List Char)
  | [] => if pat.isPrefixOf ([] : List Char) then some ([], []) else none
  | a :: rest =>
    if pat.isPrefixOf (a :: rest) then some ([], (a :: rest).drop pat.length)
    else (breakAtSub pat rest).map (fun p => (a :: p.1, p.2))

/-- Does `pat` occur as a contiguous substring of `t`? -/
def containsSub (pat t : List Char) : Bool :=
  (breakAtSub pat t).isSome

/-- Model of JavaScript `str.replace(pat, rep)` with a string pattern:
replace the first occurrence only; if `pat` does not occur, return `t`
unchanged.  (None of the replacement strings fed to it by the source
contain an active `$`-substitution pattern.) -/
def replaceFirst (pat rep t : List Char) : List Char :=
  match breakAtSub pat t with
  | none => t
  | some (p, q) => p ++ rep ++ q

/-- JavaScript regex dot (dotAll off) refuses line terminators. -/
def lineTerm (c : Char) : Bool :=
  c = '\u000a' ∨ c = '\u000d' ∨ c = '\u2028' ∨ c = '\u2029'

/-- The white-space class of JavaScript trim. -/
def isJsSpace (c : Char) : Bool :=
  c = ' ' ∨ c = '\u0009' ∨ c = '\u000a' ∨ c = '\u000d' ∨ c = '\u000b' ∨
  c = '\u000c' ∨ c = '\u00a0' ∨ c = '\u1680' ∨ ('\u2000' ≤ c ∧ c ≤ '\u200a') ∨
  c = '\u2028' ∨ c = '\u2029' ∨ c = '\u202f' ∨ c = '\u205f' ∨ c = '\u3000' ∨
  c = '\ufeff'

/-- Model of JavaScript `str.trim()`. -/
def jsTrim (t : List Char) : List Char :=
  ((t.dropWhile isJsSpace).reverse.dropWhile isJsSpace).reverse

/-!  The Krutidev → Unicode transcoder (`krutidev-converter.js`).  -/

/-- The converter's ordered literal-substitution dictionary (order matters). -/
def MAIN_MAP : List (List Char × List Char) := [
  ("\u00f1".data, "\u0970".data),
  ("Q\u002bZ".data, "QZ\u002b".data),
  ("sas".data, "sa".data),
  ("aa".data, "a".data),
  ("\u0029Z".data, "\u0930\u094d\u0926\u094d\u0927".data),
  ("ZZ".data, "Z".data),
  ("\u2018".data, "\u0022".data),
  ("\u2019".data, "\u0022".data),
  ("\u201c".data, "\u0027".data),
  ("\u201d".data, "\u0027".data),
  ("\u00e5".data, "\u0966".data),
  ("\u0192".data, "\u0967".data),
  ("\u201e".data, "\u0968".data),
  ("\u2026".data, "\u0969".data),
  ("\u2020".data, "\u096a".data),
  ("\u2021".data, "\u096b".data),
  ("\u02c6".data, "\u096c".data),
  ("\u2030".data, "\u096d".data),
  ("\u0160".data, "\u096e".data),
  ("\u2039".data, "\u096f".data),
  ("\u00b6\u002b".data, "\u095e\u094d".data),
  ("d\u002b".data, "\u0958".data),
  ("\u005b\u002bk".data, "\u0959".data),
  ("\u005b\u002b".data, "\u0959\u094d".data),
  ("x\u002b".data, "\u095a".data),
  ("T\u002b".data, "\u091c\u093c\u094d".data),
  ("t\u002b".data, "\u095b".data),
  ("M\u002b".data, "\u095c".data),
  ("\u003c\u002b".data, "\u095d".data),
  ("Q\u002b".data, "\u095e".data),
  ("\u003b\u002b".data, "\u095f".data),
  ("j\u002b".data, "\u0931".data),
  ("u\u002b".data, "\u0929".data),
  ("\u00d9k".data, "\u0924\u094d\u0924".data),
  ("\u00d9".data, "\u0924\u094d\u0924\u094d".data),
  ("\u00e4".data, "\u0915\u094d\u0924".data),
  ("\u2013".data, "\u0926\u0943".data),
  ("\u2014".data, "\u0915\u0943".data),
  ("\u00e9".data, "\u0928\u094d\u0928".data),
  ("\u2122".data, "\u0928\u094d\u0928\u094d".data),
  ("\u003dkk".data, "\u003dk".data),
  ("f\u003dk".data, "f\u003d".data),
  ("\u00e0".data, "\u0939\u094d\u0928".data),
  ("\u00e1".data, "\u0939\u094d\u092f".data),
  ("\u00e2".data, "\u0939\u0943".data),
  ("\u00e3".data, "\u0939\u094d\u092e".data),
  ("\u00baz".data, "\u0939\u094d\u0930".data),
  ("\u00ba".data, "\u0939\u094d".data),
  ("\u00ed".data, "\u0926\u094d\u0926".data),
  ("\u007bk".data, "\u0915\u094d\u0937".data),
  ("\u007b".data, "\u0915\u094d\u0937\u094d".data),
  ("\u003d".data, "\u0924\u094d\u0930".data),
  ("\u00ab".data, "\u0924\u094d\u0930\u094d".data),
  ("N\u00ee".data, "\u091b\u094d\u092f".data),
  ("V\u00ee".data, "\u091f\u094d\u092f".data),
  ("B\u00ee".data, "\u0920\u094d\u092f".data),
  ("M\u00ee".data, "\u0921\u094d\u092f".data),
  ("\u003c\u00ee".data, "\u0922\u094d\u092f".data),
  ("\u007c".data, "\u0926\u094d\u092f".data),
  ("K".data, "\u091c\u094d\u091e".data),
  ("\u007d".data, "\u0926\u094d\u0935".data),
  ("J".data, "\u0936\u094d\u0930".data),
  ("V\u00aa".data, "\u091f\u094d\u0930".data),
  ("M\u00aa".data, "\u0921\u094d\u0930".data),
  ("\u003c\u00aa\u00aa".data, "\u0922\u094d\u0930".data),
  ("N\u00aa".data, "\u091b\u094d\u0930".data),
  ("\u00d8".data, "\u0915\u094d\u0930".data),
  ("\u00dd".data, "\u092b\u094d\u0930".data),
  ("nzZ".data, "\u0930\u094d\u0926\u094d\u0930".data),
  ("\u00e6".data, "\u0926\u094d\u0930".data),
  ("\u00e7".data, "\u092a\u094d\u0930".data),
  ("\u00c1".data, "\u092a\u094d\u0930".data),
  ("xz".data, "\u0917\u094d\u0930".data),
  ("\u0023".data, "\u0930\u0941".data),
  ("\u003a".data, "\u0930\u0942".data),
  ("v\u201a".data, "\u0911".data),
  ("vks".data, "\u0913".data),
  ("vkS".data, "\u0914".data),
  ("vk".data, "\u0906".data),
  ("v".data, "\u0905".data),
  ("b\u00b1".data, "\u0908\u0902".data),
  ("\u00c3".data, "\u0908".data),
  ("bZ".data, "\u0908".data),
  ("b".data, "\u0907".data),
  ("m".data, "\u0909".data),
  ("\u00c5".data, "\u090a".data),
  ("\u002cs".data, "\u0910".data),
  ("\u002c".data, "\u090f".data),
  ("\u005f".data, "\u090b".data),
  ("\u00f4".data, "\u0915\u094d\u0915".data),
  ("d".data, "\u0915".data),
  ("Dk".data, "\u0915".data),
  ("D".data, "\u0915\u094d".data),
  ("\u005bk".data, "\u0916".data),
  ("\u005b".data, "\u0916\u094d".data),
  ("x".data, "\u0917".data),
  ("Xk".data, "\u0917".data),
  ("X".data, "\u0917\u094d".data),
  ("\u00c4".data, "\u0918".data),
  ("\u003fk".data, "\u0918".data),
  ("\u003f".data, "\u0918\u094d".data),
  ("\u00b3".data, "\u0919".data),
  ("pkS".data, "\u091a\u0948".data),
  ("p".data, "\u091a".data),
  ("Pk".data, "\u091a".data),
  ("P".data, "\u091a\u094d".data),
  ("N".data, "\u091b".data),
  ("t".data, "\u091c".data),
  ("Tk".data, "\u091c".data),
  ("T".data, "\u091c\u094d".data),
  ("\u003e".data, "\u091d".data),
  ("\u00f7".data, "\u091d\u094d".data),
  ("\u00a5".data, "\u091e".data),
  ("\u00ea".data, "\u091f\u094d\u091f".data),
  ("\u00eb".data, "\u091f\u094d\u0920".data),
  ("V".data, "\u091f".data),
  ("B".data, "\u0920".data),
  ("\u00ec".data, "\u0921\u094d\u0921".data),
  ("\u00ef".data, "\u0921\u094d\u0922".data),
  ("M".data, "\u0921".data),
  ("\u003c".data, "\u0922".data),
  ("\u002ek".data, "\u0923".data),
  ("\u002e".data, "\u0923\u094d".data),
  ("r".data, "\u0924".data),
  ("Rk".data, "\u0924".data),
  ("R".data, "\u0924\u094d".data),
  ("Fk".data, "\u0925".data),
  ("F".data, "\u0925\u094d".data),
  ("\u0029".data, "\u0926\u094d\u0927".data),
  ("n".data, "\u0926".data),
  ("\u002fk".data, "\u0927".data),
  ("\u002f".data, "\u0927\u094d".data),
  ("\u00cb".data, "\u0927\u094d".data),
  ("\u00e8".data, "\u0927".data),
  ("u".data, "\u0928".data),
  ("Uk".data, "\u0928".data),
  ("U".data, "\u0928\u094d".data),
  ("i".data, "\u092a".data),
  ("Ik".data, "\u092a".data),
  ("I".data, "\u092a\u094d".data),
  ("Q".data, "\u092b".data),
  ("\u00b6".data, "\u092b\u094d".data),
  ("c".data, "\u092c".data),
  ("Ck".data, "\u092c".data),
  ("C".data, "\u092c\u094d".data),
  ("Hk".data, "\u092d".data),
  ("H".data, "\u092d\u094d".data),
  ("e".data, "\u092e".data),
  ("Ek".data, "\u092e".data),
  ("E".data, "\u092e\u094d".data),
  ("\u003b".data, "\u092f".data),
  ("\u00b8".data, "\u092f\u094d".data),
  ("j".data, "\u0930".data),
  ("y".data, "\u0932".data),
  ("Yk".data, "\u0932".data),
  ("Y".data, "\u0932\u094d".data),
  ("G".data, "\u0933".data),
  ("o".data, "\u0935".data),
  ("Ok".data, "\u0935".data),
  ("O".data, "\u0935\u094d".data),
  ("\u0027k".data, "\u0936".data),
  ("\u0027".data, "\u0936\u094d".data),
  ("\u0022k".data, "\u0937".data),
  ("\u0022".data, "\u0937\u094d".data),
  ("l".data, "\u0938".data),
  ("Lk".data, "\u0938".data),
  ("L".data, "\u0938\u094d".data),
  ("g".data, "\u0939".data),
  ("\u00c8".data, "\u0940\u0902".data),
  ("saz".data, "\u094d\u0930\u0947\u0902".data),
  ("z".data, "\u094d\u0930".data),
  ("\u00cc".data, "\u0926\u094d\u0926".data),
  ("\u00cd".data, "\u091f\u094d\u091f".data),
  ("\u00ce".data, "\u091f\u094d\u0920".data),
  ("\u00cf".data, "\u0921\u094d\u0921".data),
  ("\u00d1".data, "\u0915\u0943".data),
  ("\u00d2".data, "\u092d".data),
  ("\u00d3".data, "\u094d\u092f".data),
  ("\u00d4".data, "\u0921\u094d\u0922".data),
  ("\u00d6".data, "\u091d\u094d".data),
  ("\u00dck".data, "\u0936".data),
  ("\u00dc".data, "\u0936\u094d".data),
  ("\u201a".data, "\u0949".data),
  ("kas".data, "\u094b\u0902".data),
  ("ks".data, "\u094b".data),
  ("kS".data, "\u094c".data),
  ("\u00a1k".data, "\u093e\u0901".data),
  ("ak".data, "k\u0902".data),
  ("k".data, "\u093e".data),
  ("ah".data, "\u0940\u0902".data),
  ("h".data, "\u0940".data),
  ("aq".data, "\u0941\u0902".data),
  ("q".data, "\u0941".data),
  ("aw".data, "\u0942\u0902".data),
  ("\u00a1w".data, "\u0942\u0901".data),
  ("w".data, "\u0942".data),
  ("\u0060".data, "\u0943".data),
  ("\u0300".data, "\u0943".data),
  ("as".data, "\u0947\u0902".data),
  ("\u00b1s".data, "s\u00b1".data),
  ("s".data, "\u0947".data),
  ("aS".data, "\u0948\u0902".data),
  ("S".data, "\u0948".data),
  ("a\u00aa".data, "\u094d\u0930\u0902".data),
  ("\u00aa".data, "\u094d\u0930".data),
  ("fa".data, "\u0902f".data),
  ("a".data, "\u0902".data),
  ("\u00a1".data, "\u0901".data),
  ("\u0025".data, "\u003a".data),
  ("W".data, "\u0945".data),
  ("\u2022".data, "\u093d".data),
  ("\u00b7".data, "\u093d".data),
  ("\u2219".data, "\u093d".data),
  ("\u007ej".data, "\u094d\u0930".data),
  ("\u007e".data, "\u094d".data),
  ("\u005c".data, "\u003f".data),
  ("\u002b".data, "\u093c".data),
  ("\u005e".data, "\u2018".data),
  ("\u002a".data, "\u2019".data),
  ("\u00de".data, "\u201c".data),
  ("\u00df".data, "\u201d".data),
  ("\u0028".data, "\u003b".data),
  ("\u00bc".data, "\u0028".data),
  ("\u00bd".data, "\u0029".data),
  ("\u00c0".data, "\u007d".data),
  ("\u00be".data, "\u003d".data),
  ("A".data, "\u0964".data),
  ("\u002d".data, "\u002e".data),
  ("\u0026".data, "\u002d".data),
  ("\u03bc".data, "\u002d".data),
  ("\u0152".data, "\u0970".data),
  ("\u005d".data, "\u002c".data),
  ("\u007e\u0020".data, "\u094d\u0020".data),
  ("\u0040".data, "\u002f".data),
  ("\u00ae".data, "\u0948\u0902".data)
]

/-- `VOWELS_UNICODE` from the source: the characters over which the reph
relocation pass walks leftward. -/
def VOWELS_UNICODE : List Char :=
  ['\u0905', '\u0906', '\u0907', '\u0908', '\u0909', '\u090a',
   '\u090f', '\u0910', '\u0913', '\u0914',
   '\u093e', '\u093f', '\u0940', '\u0941', '\u0942', '\u0943',
   '\u0947', '\u0948', '\u094b', '\u094c',
   '\u0902', '\u0903', '\u0901', '\u0945']

/-- `UNATTACHED_UNICODE` from the source: dependent vowel signs and combining
marks targeted by the cleanup pass. -/
def UNATTACHED_UNICODE : List Char :=
  ['\u093e', '\u093f', '\u0940', '\u0941', '\u0942', '\u0943',
   '\u0947', '\u0948', '\u094b', '\u094c',
   '\u0902', '\u0903', '\u0901', '\u0945']

/-- Apply the dictionary rules in order (`for (const [find, replace] of MAIN_MAP)`). -/
def applyRules (rules : List (List Char × List Char)) (t : List Char) : List Char :=
  rules.foldl (fun acc r => replaceAll acc r.1 r.2) t

/-- Pre-processing stage (space before conjunct markers is dropped). -/
def stagePre (t : List Char) : List Char :=
  replaceAll (replaceAll (replaceAll t "\u0020\u00aa".data "\u00aa".data)
    "\u0020\u007ej".data "\u007ej".data) "\u0020z".data "z".data

/-- The two replacements between the dictionary and the f-repositioning loop. -/
def stageC (t : List Char) : List Char :=
  replaceAll (replaceAll t "\u00b1".data "Z\u0902".data)
    "\u00c6".data "\u0930\u094df".data

/-- One iteration of the source's f-repositioning loop
(`/f(.?)/g` followed by `t.replace('f' + match, match + matraI)`):
`none` when the regex no longer matches and the loop exits. -/
def fStep (t : List Char) : Option (List Char) :=
  match breakAtChar 'f' t with
  | none => none
  | some (pre, post) =>
    match post with
    | [] => some (pre ++ ['\u093f'])
    | c :: rest =>
      if lineTerm c then some (pre ++ '\u093f' :: c :: rest)
      else some (pre ++ c :: '\u093f' :: rest)

/-- The fuelled f-repositioning loop. -/
def fLoopF : Nat → List Char → Option (List Char)
  | 0, _ => none
  | fuel + 1, t =>
    match fStep t with
    | none => some t
    | some u => fLoopF fuel u

/-- The three replacements that reintroduce `fa` pairs. -/
def stageE (t : List Char) : List Char :=
  replaceAll (replaceAll (replaceAll t "\u00c7".data "fa".data)
    "\u00af".data "fa".data) "\u00c9".data "\u0930\u094dfa".data

/-- One iteration of the `fa`-repositioning loop (`/fa(.?)/g`). -/
def faStep (t : List Char) : Option (List Char) :=
  match breakAtSub "fa".data t with
  | none => none
  | some (pre, post) =>
    match post with
    | [] => some (pre ++ ['\u093f', '\u0902'])
    | c :: rest =>
      if lineTerm c then some (pre ++ '\u093f' :: '\u0902' :: c :: rest)
      else some (pre ++ c :: '\u093f' :: '\u0902' :: rest)

/-- The fuelled fa-repositioning loop. -/
def faLoopF : Nat → List Char → Option (List Char)
  | 0, _ => none
  | fuel + 1, t =>
    match faStep t with
    | none => some t
    | some u => faLoopF fuel u

/-- The replacement between the fa loop and the matra-virama swap loop. -/
def stageG (t : List Char) : List Char :=
  replaceAll t "\u00ca".data "\u0940Z".data

/-- One iteration of the matra-virama swap loop (`/\u093f\u094d(.?)/g`). -/
def iStep (t : List Char) : Option (List Char) :=
  match breakAtSub "\u093f\u094d".data t with
  | none => none
  | some (pre, post) =>
    match post with
    | [] => some (pre ++ ['\u094d', '\u093f'])
    | c :: rest =>
      if lineTerm c then some (pre ++ '\u094d' :: '\u093f' :: c :: rest)
      else some (pre ++ '\u094d' :: c :: '\u093f' :: rest)

/-- The fuelled matra-virama swap loop. -/
def iLoopF : Nat → List Char → Option (List Char)
  | 0, _ => none
  | fuel + 1, t =>
    match iStep t with
    | none => some t
    | some u => iLoopF fuel u

/-- The replacement just before the reph relocation loop. -/
def stageI (t : List Char) : List Char :=
  replaceAll t "\u094dZ".data "Z".data

/-- JavaScript `t[-1]` is `undefined`; prepending it to a string via `+`
coerces it to the nine characters below.  This is what the source's reph
walk does when it runs off the left end of the string. -/
def undefinedChars : List Char := "undefined".data

/-- The inner leftward walk of the reph relocation loop: `m` is the
accumulated `match` (head = character at the current index), `rev` holds the
characters to its left, nearest first.  While the current character is a
vowel the walk moves left and prepends the next character; falling off the
left end prepends the coercion of `undefined`. -/
def zWalk : List Char → List Char → List Char
  | [], m =>
    match m.head? with
    | some h => if VOWELS_UNICODE.contains h then undefinedChars ++ m else m
    | none => m
  | r :: rest, m =>
    match m.head? with
    | some h => if VOWELS_UNICODE.contains h then zWalk rest (r :: m) else m
    | none => m

/-- One iteration of the reph (`Z`) relocation loop (`/(.?)Z/g`): locate the
first `Z`; the regex group is the preceding character when it exists and is
not a line terminator; walk left over vowel signs; then replace the first
occurrence of `match ++ "Z"` by the reph followed by `match`.  When the walk
has run off the left end the pattern contains the characters of
`"undefined"`, the replace finds nothing, and the string is returned
unchanged — exactly the source's behaviour, where the loop then spins
forever. -/
def zStep (t : List Char) : Option (List Char) :=
  match breakAtChar 'Z' t with
  | none => none
  | some (pre, _post) =>
    let m : List Char :=
      match pre.getLast? with
      | none => []
      | some g => if lineTerm g then [] else zWalk pre.dropLast.reverse [g]
    some (replaceFirst (m ++ ['Z']) ('\u0930' :: '\u094d' :: m) t)

/-- The fuelled reph relocation loop: a stuck iteration makes this return
`none` for every fuel, the model of the source's infinite loop. -/
def zLoopF : Nat → List Char → Option (List Char)
  | 0, _ => none
  | fuel + 1, t =>
    match zStep t with
    | none => some t
    | some u => zLoopF fuel u

/-- The cleanup loop over `UNATTACHED_UNICODE`: drop a space before a sign,
move a comma behind a sign, and rewrite virama-plus-sign to sign-plus-comma. -/
def cleanupMatra (t : List Char) : List Char :=
  UNATTACHED_UNICODE.foldl
    (fun acc m =>
      replaceAll (replaceAll (replaceAll acc [' ', m] [m])
        [',', m] [m, ',']) ['\u094d', m] [m, ',']) t

/-- The four final cleanup replacements. -/
def cleanupFinal (t : List Char) : List Char :=
  replaceAll (replaceAll (replaceAll (replaceAll t
    "\u094d\u094d\u0930".data "\u094d\u0930".data)
    "\u094d\u0930\u094d".data "\u0930\u094d".data)
    "\u094d\u094d".data "\u094d".data)
    "\u094d\u0020".data "\u0020".data

/-- The whole `krutidevToUnicode` pipeline, fuelled.  `none` models fuel
exhaustion — in particular every fuel returns `none` on inputs where the
reph relocation loop of the source never terminates. -/
def krutidevToUnicodeF (fuel : Nat) (text : List Char) : Option (List Char) :=
  if text.isEmpty then some text else
  match fLoopF fuel (stageC (applyRules MAIN_MAP (stagePre text))) with
  | none => none
  | some t1 =>
    match faLoopF fuel (stageE t1) with
    | none => none
    | some t2 =>
      match iLoopF fuel (stageG t2) with
      | none => none
      | some t3 =>
        match zLoopF fuel (stageI t3) with
        | none => none
        | some t4 => some (jsTrim (cleanupFinal (cleanupMatra t4)))

/-- Number of characters in the Unicode Devanagari block, the source's
`(text.match(/[\u0900-\u097F]/g) || []).length`. -/
def devanagariCount (t : List Char) : Nat :=
  (t.filter (fun c => '\u0900' ≤ c ∧ c ≤ '\u097f')).length

/-- The fixed marker list of `isLikelyKrutidev` (the alternatives of its
`krutiMarkers` regex). -/
def krutiMarkers : List (List Char) :=
  ["fd\u003bk".data, "x\u003bk".data, "gSA".data, "gS".data, "dh".data,
   "ds".data, "dk".data, "esa".data, "vkSj".data, "\u003bg".data,
   "ls".data, "ij".data, "dks".data, "ugha".data, "gks".data,
   "\u003bk".data, "Fkk".data, "Fkh".data, "Fks".data, "x\u003bh".data,
   "x\u003bs".data, "fd".data, "vk".data, "\u002cd".data, "Hkh".data]

/-- Does the text contain one of the legacy marker sequences? -/
def hasMarker (t : List Char) : Bool :=
  krutiMarkers.any (fun m => containsSub m t)

/-- The classifier `isLikelyKrutidev`.  The source compares
`devanagariCount > text.length * 0.3`; with counts this small the binary
float comparison agrees with the exact rational comparison
`10 * devanagariCount > 3 * length` used here. -/
def isLikelyKrutidev (t : List Char) : Bool :=
  if t.length < 5 then false
  else if 3 * t.length < 10 * devanagariCount t then false
  else hasMarker t

/-- The fuelled `autoConvert`: convert when the classifier fires, otherwise
return the input unchanged. -/
def autoConvertF (fuel : Nat) (text : List Char) : Option (List Char) :=
  if text.isEmpty then some text
  else if isLikelyKrutidev text then krutidevToUnicodeF fuel text
  else some text


/-- Nontermination of the transcoder on an input: every fuel is exhausted.
Each loop of the model consumes fuel only when its regex still matches, so
this holds exactly when the source's corresponding loop runs forever. -/
def KrutidevDiverges (s : List Char) : Prop :=
  ∀ fuel, krutidevToUnicodeF fuel s = none

/-- Nontermination of `autoConvert` on an input. -/
def AutoConvertDiverges (s : List Char) : Prop :=
  ∀ fuel, autoConvertF fuel s = none

/-!  Machinery for the idempotence analysis: a character is *killed* by the
dictionary when some rule erases exactly that character and no later rule's
replacement reintroduces it.  -/

/-- No replacement in the rule list contains `c`. -/
def allRepsFree (c : Char) (rules : List (List Char × List Char)) : Bool :=
  rules.all (fun r => !(r.2.contains c))

/-- The rule list contains a rule whose pattern is exactly `[c]`, whose
replacement avoids `c`, and after which no replacement reintroduces `c`. -/
def killsChar (c : Char) : List (List Char × List Char) → Bool
  | [] => false
  | (f, r) :: rest =>
    ((f == [c]) && !(r.contains c) && allRepsFree c rest) || killsChar c rest

/-- Every character that any pass after the main dictionary can insert:
the replacements of the intermediate literal substitutions, the characters
inserted by the four repositioning loops, and the cleanup pass's signs,
comma and space. -/
def insertedChars : List Char :=
  "Zंर्faिी, ".data ++ UNATTACHED_UNICODE

/-- For each legacy marker sequence, at least one of these characters occurs
in it; each is killed by the dictionary and never reinserted, so no marker
can survive into a transcoded output. -/
def deadChars : List Char :=
  ['d', 'x', 'g', 'e', 'v', 'l', 'i', 'u', 'k', 'F', 'H']

/-!  The by-product predicate of the cleanup-pass claim.  Modelled from the
spec's words (doubled virama, virama before a dependent vowel sign or an
independent vowel, virama before whitespace), to be compared with what the
transcoder actually emits.  -/

/-- Unicode Devanagari independent vowels. -/
def isIndependentVowel (c : Char) : Bool :=
  'ऄ' ≤ c ∧ c ≤ 'औ'

/-- An adjacent pair that the spec calls a transcoding by-product. -/
def viramaArtifactPair (a b : Char) : Bool :=
  a = '्' &&
    (b = '्' || UNATTACHED_UNICODE.contains b || isIndependentVowel b ||
      isJsSpace b)

/-- Does the text contain any cleanup by-product pair? -/
def hasViramaArtifact : List Char → Bool
  | a :: b :: rest => viramaArtifactPair a b || hasViramaArtifact (b :: rest)
  | _ => false

/-!  Table extraction (`extractTable`, `building-permit.js`).  The page reads
(header cells, row cells) are the inputs; the pure record construction is
modelled exactly.  -/

/-- JavaScript `cells[i] || ''`: an absent cell and an empty cell both give
the empty string. -/
def jsOrEmpty (o : Option String) : String :=
  match o with
  | some s => if s = "" then "" else s
  | none => ""

/-- The fallback header list used when the header container read fails. -/
def defaultHeaders : List String :=
  ["#", "Application No.", "File No.", "Applicant Name", "Date",
   "Service Name", "Status", "Due Date", "Days", "Action"]

/-- `headers.forEach((h, i) => obj[h] = cells[i] || '')`: the row record as
an association list in header order. -/
def rowToRecord (headers cells : List String) : List (String × String) :=
  headers.enum.map (fun p => (p.2, jsOrEmpty (cells.get? p.1)))

/-- The headers/rows part of an `extractTable` result. -/
structure TableData where
  headers : List String
  rows : List (List (String × String))
deriving DecidableEq, Repr

/-- `extractTable`'s pure core: fall back to the default headers when the
header read failed, then convert every raw row to a record. -/
def extractTableModel (headersFound : Option (List String))
    (rawRows : List (List String)) : TableData :=
  let headers := headersFound.getD defaultHeaders
  ⟨headers, rawRows.map (rowToRecord headers)⟩

/-!  Workflow timeline extraction (`extractWorkflow`, `building-permit.js`).
The DOM reads of one `<li>` are the inputs; building, pruning and the
Krutidev conversion passes are modelled exactly.  -/

/-- One extracted timeline entry. -/
structure WorkflowItem where
  status : Option String := none
  process_name : Option String := none
  start_date : Option String := none
  end_date : Option String := none
  assigned_to : Option String := none
  remarks : Option String := none
  detail_content : Option String := none
  raw_text : Option String := none
  remarks_original : Option String := none
  raw_text_original : Option String := none
deriving DecidableEq, Repr

/-- JavaScript truthiness of an optional string field. -/
def truthy (o : Option String) : Bool :=
  match o with
  | some s => !(s == "")
  | none => false

/-- JavaScript `s.trim()` on a `String`. -/
def jsTrimStr (s : String) : String :=
  String.mk (jsTrim s.data)

/-- JavaScript `s.substring(0, n)`. -/
def strTake (s : String) (n : Nat) : String :=
  String.mk (s.data.take n)

/-- The DOM reads of one timeline `<li>`: `h4` is present iff the entry has
a heading, carrying the badge text (if a badge exists) and the cleaned
heading text; `preText` is present iff the entry has a `<pre>` block;
the date/assignee region reads are passed through. -/
structure LiData where
  h4 : Option (Option String × String) := none
  startDate : Option String := none
  endDate : Option String := none
  assignedTo : Option String := none
  preText : Option String := none
  detailText : Option String := none
  fullText : String := ""
deriving DecidableEq, Repr

/-- Build one timeline entry from an `<li>`'s reads, returning `none` when
the entry carries none of process name, remarks or raw text and is dropped. -/
def mkWorkflowItem (li : LiData) : Option WorkflowItem :=
  let status : Option String :=
    match li.h4 with
    | some (b, _) => b
    | none => none
  let process_name : Option String :=
    match li.h4 with
    | some (_, name) => if name = "" then none else some name
    | none => none
  let remarks : Option String := li.preText
  let fullTrim := jsTrimStr li.fullText
  let raw_text : Option String :=
    if !(truthy process_name) && !(truthy remarks) && decide (5 < fullTrim.length)
    then some (strTake fullTrim 300) else none
  if truthy process_name || truthy remarks || truthy raw_text then
    some { status := status, process_name := process_name,
           start_date := li.startDate, end_date := li.endDate,
           assigned_to := li.assignedTo, remarks := remarks,
           detail_content := li.detailText, raw_text := raw_text }
  else none

/-- The timeline before conversion: build and prune each entry. -/
def extractTimelineModel (lis : List LiData) : List WorkflowItem :=
  lis.filterMap mkWorkflowItem

/-- The remarks half of the task-list extractor's conversion pass
(`extractWorkflow`): when the remark is truthy and classifies as Krutidev,
keep the original and store the conversion. -/
def bpConvertRemarks (fuel : Nat) (it : WorkflowItem) : Option WorkflowItem :=
  match it.remarks with
  | some rm =>
    if !(rm == "") && isLikelyKrutidev rm.data then
      match autoConvertF fuel rm.data with
      | none => none
      | some conv =>
        some { it with remarks_original := some rm,
                       remarks := some (String.mk conv) }
    else some it
  | none => some it

/-- The raw-text half of the task-list extractor's conversion pass. -/
def bpConvertRawText (fuel : Nat) (it : WorkflowItem) : Option WorkflowItem :=
  match it.raw_text with
  | some rt =>
    if !(rt == "") && isLikelyKrutidev rt.data then
      match autoConvertF fuel rt.data with
      | none => none
      | some conv =>
        some { it with raw_text_original := some rt,
                       raw_text := some (String.mk conv) }
    else some it
  | none => some it

/-- The conversion pass of the task-list extractor (`extractWorkflow`):
convert `remarks` and then `raw_text` through `autoConvert`, keeping the
original value whenever the classifier fired. -/
def bpConvertItem (fuel : Nat) (it : WorkflowItem) : Option WorkflowItem :=
  match bpConvertRemarks fuel it with
  | none => none
  | some it1 => bpConvertRawText fuel it1

/-- The conversion pass of the proposal-modal extractor
(`extractWorkflowInModal`): convert `remarks` in place; nothing is kept and
`raw_text` is not converted. -/
def modalConvertItem (fuel : Nat) (it : WorkflowItem) : Option WorkflowItem :=
  match it.remarks with
  | some rm =>
    if !(rm == "") && isLikelyKrutidev rm.data then
      match autoConvertF fuel rm.data with
      | none => none
      | some conv => some { it with remarks := some (String.mk conv) }
    else some it
  | none => some it

/-- The conversion pass of the CCMS extractor (`extractCCMSWorkflow`,
`drive-upload.js`), identical in shape to the modal pass. -/
def ccmsConvertItem (fuel : Nat) (it : WorkflowItem) : Option WorkflowItem :=
  match it.remarks with
  | some rm =>
    if !(rm == "") && isLikelyKrutidev rm.data then
      match autoConvertF fuel rm.data with
      | none => none
      | some conv => some { it with remarks := some (String.mk conv) }
    else some it
  | none => some it

/-- The task-list conversion pass over a whole timeline. -/
def bpConvertPass (fuel : Nat) : List WorkflowItem → Option (List WorkflowItem)
  | [] => some []
  | it :: rest =>
    match bpConvertItem fuel it with
    | none => none
    | some it2 =>
      match bpConvertPass fuel rest with
      | none => none
      | some r => some (it2 :: r)

/-- The modal conversion pass over a whole timeline. -/
def modalConvertPass (fuel : Nat) : List WorkflowItem → Option (List WorkflowItem)
  | [] => some []
  | it :: rest =>
    match modalConvertItem fuel it with
    | none => none
    | some it2 =>
      match modalConvertPass fuel rest with
      | none => none
      | some r => some (it2 :: r)

/-- The CCMS conversion pass over a whole timeline. -/
def ccmsConvertPass (fuel : Nat) : List WorkflowItem → Option (List WorkflowItem)
  | [] => some []
  | it :: rest =>
    match ccmsConvertItem fuel it with
    | none => none
    | some it2 =>
      match ccmsConvertPass fuel rest with
      | none => none
      | some r => some (it2 :: r)

/-!  Download confirmation (`waitForDownload`, `building-permit.js`).  The
polling loop reads the directory once per tick; a run of the loop is
modelled on the finite trace of directory listings it would observe, the
trace length playing the role of the bounded timeout.  -/

/-- JavaScript `f.endsWith(suffix)`. -/
def jsEndsWith (f suffix : String) : Bool :=
  suffix.data.isSuffixOf f.data

/-- `current.some(f => f.endsWith('.crdownload'))`. -/
def hasCrdownload (current : List String) : Bool :=
  current.any (fun f => jsEndsWith f ".crdownload")

/-- `current.some(f => !filesBefore.has(f) && !f.endsWith('.crdownload'))`. -/
def hasNewFile (before current : List String) : Bool :=
  current.any (fun f => !(before.contains f) && !(jsEndsWith f ".crdownload"))

/-- The completion test of one polling tick. -/
def downloadComplete (before current : List String) : Bool :=
  hasNewFile before current && !(hasCrdownload current)

/-- The polling loop over a trace of directory listings: the index of the
tick at which completion is signalled, or `none` when the timeout elapses
with no tick satisfying the test. -/
def waitForDownloadModel (before : List String) :
    List (List String) → Option Nat
  | [] => none
  | cur :: rest =>
    if downloadComplete before cur then some 0
    else (waitForDownloadModel before rest).map (· + 1)

/-!  The permit-module orchestrator (`runFullWorkflow`,
`building-permit.js`).  Each stage's page interaction is abstracted as an
environment field holding what the stage would observe; the orchestration
logic — ordering, early returns, and the aggregate result, including the
hard-coded skip of the attachment stage — is modelled exactly.  -/

/-- One attachment row's metadata (`downloadAttachments`). -/
structure PanelMeta where
  panelTitle : String
  description : String
  date : String
  downloaded : Bool
deriving DecidableEq, Repr

/-- The shape of a `downloadAttachments` result (and of the orchestrator's
stub): panel metadata, files on disk, and the `_skipped` tag. -/
structure AttachResult where
  panels : List PanelMeta
  files : List String
  skipped : Bool := false
deriving DecidableEq, Repr

/-- What each stage of a `runFullWorkflow` run would observe, including the
result `downloadAttachments()` would produce were it invoked. -/
structure BPEnv where
  hasPage : Bool := true
  navOk : Bool := true
  navError : String := ""
  totalCases : Option Nat := none
  filterOk : Bool := true
  filterError : String := ""
  rowsAppear : Bool := true
  tableHeadersFound : Option (List String) := none
  tableRawRows : List (List String) := []
  openOk : Bool := true
  openError : String := ""
  heading : Option String := none
  workflow : List WorkflowItem := []
  downloadResult : AttachResult := ⟨[], [], false⟩
deriving DecidableEq, Repr

/-- A `runFullWorkflow` outcome: an error return (possibly carrying the
table data already extracted), or the final aggregate response. -/
inductive BPOutcome where
  | failed (error : String) (partialTable : Option TableData)
  | completed (heading : Option String) (totalCases : Option Nat)
      (firstRow : Option (List (String × String)))
      (allRows : List (List (String × String)))
      (workflow : List WorkflowItem) (attachments : AttachResult)
deriving DecidableEq, Repr

/-- The attachments field of an outcome, when the run completed. -/
def BPOutcome.attachments? : BPOutcome → Option AttachResult
  | .failed _ _ => none
  | .completed _ _ _ _ _ a => some a

/-- The orchestrator: navigate, filter, wait for rows, extract the table,
open the first row, extract heading and workflow, and return the aggregate.
Step 7 is the source's disabled attachment stage: the result always carries
the literal stub `{ panels: [], files: [], _skipped: true }` and the
environment's `downloadResult` is never consulted. -/
def runFullWorkflowModel (env : BPEnv) : BPOutcome :=
  if !env.hasPage then .failed "No active session" none
  else if !env.navOk then .failed env.navError none
  else if !env.filterOk then .failed env.filterError none
  else if !env.rowsAppear then .failed "No rows after filter" none
  else
    let tbl := extractTableModel env.tableHeadersFound env.tableRawRows
    let firstRow := tbl.rows.head?
    if !env.openOk then .failed ("Failed to open row: " ++ env.openError) (some tbl)
    else .completed env.heading env.totalCases firstRow tbl.rows env.workflow
      ⟨[], [], true⟩


/-!  ## Basic lemmas about the string-operation models  -/

theorem breakAtChar_eq {x : Char} :
    ∀ {t p q : List Char}, breakAtChar x t = some (p, q) → t = p ++ x :: q := by
  intro t
  induction t with
  | nil => intro p q h; simp [breakAtChar] at h
  | cons a rest ih =>
    intro p q h
    rw [breakAtChar] at h
    by_cases ha : a = x
    · rw [if_pos ha] at h
      rw [Option.some.injEq, Prod.mk.injEq] at h
      obtain ⟨h1, h2⟩ := h
      subst h1; subst h2
      simp [ha]
    · rw [if_neg ha] at h
      cases hrec : breakAtChar x rest with
      | none => rw [hrec] at h; simp at h
      | some pr =>
        rw [hrec] at h
        rw [Option.map, Option.some.injEq, Prod.mk.injEq] at h
        obtain ⟨h1, h2⟩ := h
        subst h1; subst h2
        have := ih (p := pr.1) (q := pr.2) (by rw [hrec])
        rw [this]
        simp

theorem breakAtSub_eq {pat : List Char} :
    ∀ {t p q : List Char}, breakAtSub pat t = some (p, q) → t = p ++ pat ++ q := by
  intro t
  induction t with
  | nil =>
    intro p q h
    rw [breakAtSub] at h
    by_cases hp : pat.isPrefixOf ([] : List Char)
    · have hpe : pat = [] := by
        cases pat with
        | nil => rfl
        | cons b bs => simp [List.isPrefixOf] at hp
      rw [if_pos hp, Option.some.injEq, Prod.mk.injEq] at h
      obtain ⟨h1, h2⟩ := h
      subst h1; subst h2
      simp [hpe]
    · rw [if_neg hp] at h
      simp at h
  | cons a rest ih =>
    intro p q h
    rw [breakAtSub] at h
    by_cases hp : pat.isPrefixOf (a :: rest)
    · rw [if_pos hp, Option.some.injEq, Prod.mk.injEq] at h
      obtain ⟨h1, h2⟩ := h
      subst h1; subst h2
      obtain ⟨u, hu⟩ := List.isPrefixOf_iff_prefix.mp hp
      have hd : List.drop pat.length (a :: rest) = u := by
        rw [← hu, List.drop_left]
      rw [hd, ← hu]
      simp
    · rw [if_neg hp] at h
      cases hrec : breakAtSub pat rest with
      | none => rw [hrec] at h; simp at h
      | some pr =>
        rw [hrec] at h
        rw [Option.map, Option.some.injEq, Prod.mk.injEq] at h
        obtain ⟨h1, h2⟩ := h
        subst h1; subst h2
        have := ih (p := pr.1) (q := pr.2) (by rw [hrec])
        rw [this]
        simp

theorem containsSub_mem {pat t : List Char} (h : containsSub pat t = true) :
    ∀ c ∈ pat, c ∈ t := by
  intro c hc
  unfold containsSub at h
  cases hb : breakAtSub pat t with
  | none => rw [hb] at h; simp at h
  | some pr =>
    have hdec : t = pr.1 ++ pat ++ pr.2 := breakAtSub_eq (by rw [hb])
    rw [hdec]
    simp [hc]

theorem replaceFirst_pres {pat rep t : List Char} {c : Char}
    (ht : c ∉ t) (hc : c ∉ rep ∨ c ∈ pat) : c ∉ replaceFirst pat rep t := by
  unfold replaceFirst
  cases hb : breakAtSub pat t with
  | none => exact ht
  | some pr =>
    have hdec : t = pr.1 ++ pat ++ pr.2 := breakAtSub_eq (by rw [hb])
    intro hmem
    have hmem' : c ∈ pr.1 ∨ c ∈ rep ∨ c ∈ pr.2 := by
      simpa [List.mem_append, or_assoc] using hmem
    have htri : ¬ (c ∈ pr.1 ∨ c ∈ pat ∨ c ∈ pr.2) := by
      rw [hdec] at ht
      simpa [List.mem_append, or_assoc] using ht
    rcases hmem' with h | h | h
    · exact htri (Or.inl h)
    · rcases hc with hrep | hpat
      · exact hrep h
      · exact htri (Or.inr (Or.inl hpat))
    · exact htri (Or.inr (Or.inr h))

theorem replaceCoreF_mem {c f0 : Char} {fs rep : List Char} :
    ∀ {fuel : Nat} {t : List Char}, c ∈ replaceCoreF f0 fs rep fuel t → c ∈ t ∨ c ∈ rep := by
  intro fuel
  induction fuel with
  | zero =>
    intro t h
    cases t with
    | nil => simp [replaceCoreF] at h
    | cons a rest => exact Or.inl (by simpa [replaceCoreF] using h)
  | succ n ih =>
    intro t h
    cases t with
    | nil => simp [replaceCoreF] at h
    | cons a rest =>
      by_cases hcond : f0 = a ∧ fs.isPrefixOf rest
      · rw [replaceCoreF, if_pos hcond] at h
        rcases List.mem_append.mp h with h | h
        · exact Or.inr h
        · rcases ih h with h | h
          · exact Or.inl (List.mem_cons_of_mem _ (List.drop_subset _ _ h))
          · exact Or.inr h
      · rw [replaceCoreF, if_neg hcond] at h
        rcases List.mem_cons.mp h with h | h
        · exact Or.inl (by simp [h])
        · rcases ih h with h | h
          · exact Or.inl (List.mem_cons_of_mem _ h)
          · exact Or.inr h

theorem replaceAll_mem {c : Char} {t find rep : List Char}
    (h : c ∈ replaceAll t find rep) : c ∈ t ∨ c ∈ rep := by
  unfold replaceAll at h
  cases find with
  | nil => exact Or.inl h
  | cons f0 fs => exact replaceCoreF_mem h

theorem replaceAll_pres {c : Char} {t find rep : List Char}
    (ht : c ∉ t) (hrep : c ∉ rep) : c ∉ replaceAll t find rep := by
  intro h
  rcases replaceAll_mem h with h | h
  · exact ht h
  · exact hrep h

theorem replaceCoreF_kill {c : Char} {rep : List Char} (hrep : c ∉ rep) :
    ∀ (fuel : Nat) (t : List Char), t.length ≤ fuel →
      c ∉ replaceCoreF c [] rep fuel t := by
  intro fuel
  induction fuel with
  | zero =>
    intro t hlen
    have : t = [] := List.eq_nil_of_length_eq_zero (Nat.le_zero.mp hlen)
    subst this
    simp [replaceCoreF]
  | succ n ih =>
    intro t hlen
    cases t with
    | nil => simp [replaceCoreF]
    | cons a rest =>
      by_cases hcond : c = a ∧ ([] : List Char).isPrefixOf rest
      · rw [replaceCoreF, if_pos hcond]
        intro h
        rcases List.mem_append.mp h with h | h
        · exact hrep h
        · exact ih rest (by simpa using Nat.le_of_succ_le_succ hlen) (by simpa using h)
      · have hca : ¬ c = a := by
          intro hc
          exact hcond ⟨hc, by simp [List.isPrefixOf]⟩
        rw [replaceCoreF, if_neg hcond]
        intro h
        rcases List.mem_cons.mp h with h | h
        · exact hca h
        · exact ih rest (Nat.le_of_succ_le_succ hlen) h

theorem replaceAll_kill {c : Char} {t rep : List Char} (hrep : c ∉ rep) :
    c ∉ replaceAll t [c] rep := by
  unfold replaceAll
  exact replaceCoreF_kill hrep t.length t (Nat.le_refl _)

theorem applyRules_pres {c : Char} :
    ∀ {rules : List (List Char × List Char)} {t : List Char},
      (∀ r ∈ rules, c ∉ r.2) → c ∉ t → c ∉ applyRules rules t := by
  intro rules
  induction rules with
  | nil => intro t _ ht; exact ht
  | cons r rest ih =>
    intro t hreps ht
    have h1 : c ∉ replaceAll t r.1 r.2 :=
      replaceAll_pres ht (hreps r (List.mem_cons_self _ _))
    exact ih (fun s hs => hreps s (List.mem_cons_of_mem _ hs)) h1

theorem contains_false_not_mem {c : Char} {l : List Char}
    (h : l.contains c = false) : c ∉ l := by
  simpa using h

theorem killsChar_sound {c : Char} :
    ∀ {rules : List (List Char × List Char)},
      killsChar c rules = true → ∀ t, c ∉ applyRules rules t := by
  intro rules
  induction rules with
  | nil => intro h; simp [killsChar] at h
  | cons r rest ih =>
    intro h t
    rw [killsChar] at h
    rcases Bool.or_eq_true_iff.mp h with h | h
    · have h1 : r.1 = [c] :=
        eq_of_beq (Bool.and_eq_true_iff.mp (Bool.and_eq_true_iff.mp h).1).1
    
      have h2 : c ∉ r.2 := by
        have hb := (Bool.and_eq_true_iff.mp (Bool.and_eq_true_iff.mp h).1).2
        exact contains_false_not_mem (by simpa using hb)
      have h3 : ∀ s ∈ rest, c ∉ s.2 := by
        have hall := (Bool.and_eq_true_iff.mp h).2
        intro s hs
        unfold allRepsFree at hall
        rw [List.all_eq_true] at hall
        exact contains_false_not_mem (by simpa using hall s hs)
      show c ∉ applyRules (r :: rest) t
      unfold applyRules
      rw [List.foldl_cons]
      have hk : c ∉ replaceAll t r.1 r.2 := by
        rw [h1]; exact replaceAll_kill h2
      exact applyRules_pres h3 hk
    · show c ∉ applyRules (r :: rest) t
      unfold applyRules
      rw [List.foldl_cons]
      exact ih h _


/-!  ## Preservation of absent characters through the repositioning passes  -/

theorem fStep_pres {c : Char} {t u : List Char}
    (h : fStep t = some u) (ht : c ∉ t) (hc : c ≠ 'ि') : c ∉ u := by
  unfold fStep at h
  cases hb : breakAtChar 'f' t with
  | none => rw [hb] at h; simp at h
  | some pr =>
    obtain ⟨pre, post⟩ := pr
    have hdec : t = pre ++ 'f' :: post := breakAtChar_eq (by rw [hb])
    rw [hdec] at ht
    rw [hb] at h
    dsimp only at h
    have ht1 : c ∉ pre := fun hm => ht (List.mem_append_left _ hm)
    have ht2 : c ∉ post := fun hm =>
      ht (List.mem_append_right _ (List.mem_cons_of_mem _ hm))
    cases hp2 : post with
    | nil =>
      rw [hp2] at h
      dsimp only at h
      rw [Option.some.injEq] at h
      subst h
      simp [ht1, hc]
    | cons b rest =>
      rw [hp2] at h
      dsimp only at h
      have htb : c ∉ b :: rest := by rw [← hp2]; exact ht2
      by_cases hlt : lineTerm b = true
      · rw [if_pos hlt, Option.some.injEq] at h
        subst h
        intro hm
        rcases List.mem_append.mp hm with hm | hm
        · exact ht1 hm
        · rcases List.mem_cons.mp hm with hm | hm
          · exact hc hm
          · exact htb hm
      · rw [if_neg hlt, Option.some.injEq] at h
        subst h
        intro hm
        rcases List.mem_append.mp hm with hm | hm
        · exact ht1 hm
        · rcases List.mem_cons.mp hm with hm | hm
          · exact htb (by simp [hm])
          · rcases List.mem_cons.mp hm with hm | hm
            · exact hc hm
            · exact htb (List.mem_cons_of_mem _ hm)

theorem fLoopF_pres {c : Char} (hc : c ≠ 'ि') :
    ∀ {fuel : Nat} {t u : List Char},
      fLoopF fuel t = some u → c ∉ t → c ∉ u := by
  intro fuel
  induction fuel with
  | zero => intro t u h; simp [fLoopF] at h
  | succ n ih =>
    intro t u h ht
    rw [fLoopF] at h
    cases hs : fStep t with
    | none =>
      rw [hs, Option.some.injEq] at h
      subst h; exact ht
    | some v =>
      rw [hs] at h
      exact ih h (fStep_pres hs ht hc)

theorem faStep_pres {c : Char} {t u : List Char}
    (h : faStep t = some u) (ht : c ∉ t) (hc1 : c ≠ 'ि') (hc2 : c ≠ 'ं') :
    c ∉ u := by
  unfold faStep at h
  cases hb : breakAtSub "fa".data t with
  | none => rw [hb] at h; simp at h
  | some pr =>
    obtain ⟨pre, post⟩ := pr
    have hdec : t = pre ++ "fa".data ++ post := breakAtSub_eq (by rw [hb])
    rw [hdec] at ht
    rw [hb] at h
    dsimp only at h
    have ht1 : c ∉ pre := fun hm =>
      ht (List.mem_append_left _ (List.mem_append_left _ hm))
    have ht2 : c ∉ post := fun hm => ht (List.mem_append_right _ hm)
    cases hp2 : post with
    | nil =>
      rw [hp2] at h
      dsimp only at h
      rw [Option.some.injEq] at h
      subst h
      intro hm
      rcases List.mem_append.mp hm with hm | hm
      · exact ht1 hm
      · rcases List.mem_cons.mp hm with hm | hm
        · exact hc1 hm
        · exact hc2 (by simpa using hm)
    | cons b rest =>
      rw [hp2] at h
      dsimp only at h
      have htb : c ∉ b :: rest := by rw [← hp2]; exact ht2
      by_cases hlt : lineTerm b = true
      · rw [if_pos hlt, Option.some.injEq] at h
        subst h
        intro hm
        rcases List.mem_append.mp hm with hm | hm
        · exact ht1 hm
        · rcases List.mem_cons.mp hm with hm | hm
          · exact hc1 hm
          · rcases List.mem_cons.mp hm with hm | hm
            · exact hc2 hm
            · exact htb hm
      · rw [if_neg hlt, Option.some.injEq] at h
        subst h
        intro hm
        rcases List.mem_append.mp hm with hm | hm
        · exact ht1 hm
        · rcases List.mem_cons.mp hm with hm | hm
          · exact htb (by simp [hm])
          · rcases List.mem_cons.mp hm with hm | hm
            · exact hc1 hm
            · rcases List.mem_cons.mp hm with hm | hm
              · exact hc2 hm
              · exact htb (List.mem_cons_of_mem _ hm)

theorem faLoopF_pres {c : Char} (hc1 : c ≠ 'ि') (hc2 : c ≠ 'ं') :
    ∀ {fuel : Nat} {t u : List Char},
      faLoopF fuel t = some u → c ∉ t → c ∉ u := by
  intro fuel
  induction fuel with
  | zero => intro t u h; simp [faLoopF] at h
  | succ n ih =>
    intro t u h ht
    rw [faLoopF] at h
    cases hs : faStep t with
    | none =>
      rw [hs, Option.some.injEq] at h
      subst h; exact ht
    | some v =>
      rw [hs] at h
      exact ih h (faStep_pres hs ht hc1 hc2)

theorem iStep_pres {c : Char} {t u : List Char}
    (h : iStep t = some u) (ht : c ∉ t) (hc1 : c ≠ 'ि') (hc2 : c ≠ '्') :
    c ∉ u := by
  unfold iStep at h
  cases hb : breakAtSub "ि्".data t with
  | none => rw [hb] at h; simp at h
  | some pr =>
    obtain ⟨pre, post⟩ := pr
    have hdec : t = pre ++ "ि्".data ++ post := breakAtSub_eq (by rw [hb])
    rw [hdec] at ht
    rw [hb] at h
    dsimp only at h
    have ht1 : c ∉ pre := fun hm =>
      ht (List.mem_append_left _ (List.mem_append_left _ hm))
    have ht2 : c ∉ post := fun hm => ht (List.mem_append_right _ hm)
    cases hp2 : post with
    | nil =>
      rw [hp2] at h
      dsimp only at h
      rw [Option.some.injEq] at h
      subst h
      intro hm
      rcases List.mem_append.mp hm with hm | hm
      · exact ht1 hm
      · rcases List.mem_cons.mp hm with hm | hm
        · exact hc2 hm
        · exact hc1 (by simpa using hm)
    | cons b rest =>
      rw [hp2] at h
      dsimp only at h
      have htb : c ∉ b :: rest := by rw [← hp2]; exact ht2
      by_cases hlt : lineTerm b = true
      · rw [if_pos hlt, Option.some.injEq] at h
        subst h
        intro hm
        rcases List.mem_append.mp hm with hm | hm
        · exact ht1 hm
        · rcases List.mem_cons.mp hm with hm | hm
          · exact hc2 hm
          · rcases List.mem_cons.mp hm with hm | hm
            · exact hc1 hm
            · exact htb hm
      · rw [if_neg hlt, Option.some.injEq] at h
        subst h
        intro hm
        rcases List.mem_append.mp hm with hm | hm
        · exact ht1 hm
        · rcases List.mem_cons.mp hm with hm | hm
          · exact hc2 hm
          · rcases List.mem_cons.mp hm with hm | hm
            · exact htb (by simp [hm])
            · rcases List.mem_cons.mp hm with hm | hm
              · exact hc1 hm
              · exact htb (List.mem_cons_of_mem _ hm)

theorem iLoopF_pres {c : Char} (hc1 : c ≠ 'ि') (hc2 : c ≠ '्') :
    ∀ {fuel : Nat} {t u : List Char},
      iLoopF fuel t = some u → c ∉ t → c ∉ u := by
  intro fuel
  induction fuel with
  | zero => intro t u h; simp [iLoopF] at h
  | succ n ih =>
    intro t u h ht
    rw [iLoopF] at h
    cases hs : iStep t with
    | none =>
      rw [hs, Option.some.injEq] at h
      subst h; exact ht
    | some v =>
      rw [hs] at h
      exact ih h (iStep_pres hs ht hc1 hc2)

theorem zStep_pres {c : Char} {t u : List Char}
    (h : zStep t = some u) (ht : c ∉ t) (hc1 : c ≠ 'र') (hc2 : c ≠ '्') :
    c ∉ u := by
  unfold zStep at h
  cases hb : breakAtChar 'Z' t with
  | none => rw [hb] at h; simp at h
  | some pr =>
    obtain ⟨pre, post⟩ := pr
    rw [hb] at h
    dsimp only at h
    rw [Option.some.injEq] at h
    subst h
    refine replaceFirst_pres ht ?_
    by_cases hm : c ∈ (match pre.getLast? with
      | none => ([] : List Char)
      | some g => if lineTerm g then [] else zWalk pre.dropLast.reverse [g])
    · exact Or.inr (List.mem_append_left _ hm)
    · refine Or.inl ?_
      intro hmem
      rcases List.mem_cons.mp hmem with hh | hh
      · exact hc1 hh
      · rcases List.mem_cons.mp hh with hh | hh
        · exact hc2 hh
        · exact hm hh

theorem zLoopF_pres {c : Char} (hc1 : c ≠ 'र') (hc2 : c ≠ '्') :
    ∀ {fuel : Nat} {t u : List Char},
      zLoopF fuel t = some u → c ∉ t → c ∉ u := by
  intro fuel
  induction fuel with
  | zero => intro t u h; simp [zLoopF] at h
  | succ n ih =>
    intro t u h ht
    rw [zLoopF] at h
    cases hs : zStep t with
    | none =>
      rw [hs, Option.some.injEq] at h
      subst h; exact ht
    | some v =>
      rw [hs] at h
      exact ih h (zStep_pres hs ht hc1 hc2)

theorem cleanupMatra_fold_pres {c : Char} (hcom : c ≠ ',') :
    ∀ (ms : List Char) (t : List Char), c ∉ t → (∀ m ∈ ms, c ≠ m) →
      c ∉ ms.foldl
        (fun acc m =>
          replaceAll (replaceAll (replaceAll acc [' ', m] [m])
            [',', m] [m, ',']) ['्', m] [m, ',']) t := by
  intro ms
  induction ms with
  | nil => intro t ht _; exact ht
  | cons m rest ih =>
    intro t ht hms
    rw [List.foldl_cons]
    have hcm : c ≠ m := hms m (List.mem_cons_self _ _)
    have hrep1 : c ∉ ([m] : List Char) := by simp [hcm]
    have hrep2 : c ∉ ([m, ','] : List Char) := by simp [hcm, hcom]
    exact ih _
      (replaceAll_pres (replaceAll_pres (replaceAll_pres ht hrep1) hrep2) hrep2)
      (fun x hx => hms x (List.mem_cons_of_mem _ hx))

theorem cleanupMatra_pres {c : Char} {t : List Char}
    (ht : c ∉ t) (hms : ∀ m ∈ UNATTACHED_UNICODE, c ≠ m) (hcom : c ≠ ',') :
    c ∉ cleanupMatra t :=
  cleanupMatra_fold_pres hcom UNATTACHED_UNICODE t ht hms

theorem cleanupFinal_pres {c : Char} {t : List Char}
    (ht : c ∉ t) (hc1 : c ≠ '्') (hc2 : c ≠ 'र') (hc3 : c ≠ ' ') :
    c ∉ cleanupFinal t := by
  unfold cleanupFinal
  refine replaceAll_pres (replaceAll_pres (replaceAll_pres (replaceAll_pres ht
    ?_) ?_) ?_) ?_ <;> simp [hc1, hc2, hc3]

theorem jsTrim_mem {c : Char} {t : List Char} (h : c ∈ jsTrim t) : c ∈ t := by
  unfold jsTrim at h
  rw [List.mem_reverse] at h
  have h2 := (List.dropWhile_sublist isJsSpace).subset h
  rw [List.mem_reverse] at h2
  exact (List.dropWhile_sublist isJsSpace).subset h2


/-!  ## No killed character survives the whole pipeline  -/

theorem not_mem_of_all_mem_inserted {c : Char} (hins : c ∉ insertedChars)
    {l : List Char} (hsub : ∀ x ∈ l, x ∈ insertedChars) : c ∉ l :=
  fun hm => hins (hsub c hm)

theorem krutidevToUnicodeF_noChar {c : Char}
    (hkill : killsChar c MAIN_MAP = true) (hins : c ∉ insertedChars) :
    ∀ {fuel : Nat} {s r : List Char},
      krutidevToUnicodeF fuel s = some r → c ∉ r := by
  have hZ : c ∉ "Zं".data :=
    not_mem_of_all_mem_inserted hins (by decide)
  have hRVf : c ∉ "र्f".data :=
    not_mem_of_all_mem_inserted hins (by decide)
  have hfa : c ∉ "fa".data :=
    not_mem_of_all_mem_inserted hins (by decide)
  have hRVfa : c ∉ "र्fa".data :=
    not_mem_of_all_mem_inserted hins (by decide)
  have hIZ : c ∉ "ीZ".data :=
    not_mem_of_all_mem_inserted hins (by decide)
  have hJustZ : c ∉ "Z".data :=
    not_mem_of_all_mem_inserted hins (by decide)
  have hcI : c ≠ 'ि' :=
    fun he => hins (he ▸ (by decide : 'ि' ∈ insertedChars))
  have hcN : c ≠ 'ं' :=
    fun he => hins (he ▸ (by decide : 'ं' ∈ insertedChars))
  have hcV : c ≠ '्' :=
    fun he => hins (he ▸ (by decide : '्' ∈ insertedChars))
  have hcR : c ≠ 'र' :=
    fun he => hins (he ▸ (by decide : 'र' ∈ insertedChars))
  have hcC : c ≠ ',' :=
    fun he => hins (he ▸ (by decide : ',' ∈ insertedChars))
  have hcS : c ≠ ' ' :=
    fun he => hins (he ▸ (by decide : ' ' ∈ insertedChars))
  have hms : ∀ m ∈ UNATTACHED_UNICODE, c ≠ m := by
    intro m hm he
    exact hins (he ▸ List.mem_append_right _ hm)
  intro fuel s r h
  unfold krutidevToUnicodeF at h
  by_cases hemp : s.isEmpty = true
  · rw [if_pos hemp, Option.some.injEq] at h
    subst h
    have : s = [] := by cases s <;> simp_all
    subst this; simp
  · rw [if_neg hemp] at h
    have hbase : c ∉ applyRules MAIN_MAP (stagePre s) := killsChar_sound hkill _
    have hCst : c ∉ stageC (applyRules MAIN_MAP (stagePre s)) := by
      unfold stageC
      exact replaceAll_pres (replaceAll_pres hbase hZ) hRVf
    cases hf : fLoopF fuel (stageC (applyRules MAIN_MAP (stagePre s))) with
    | none => rw [hf] at h; dsimp only at h; simp at h
    | some t1 =>
      rw [hf] at h; dsimp only at h
      have ht1 : c ∉ t1 := fLoopF_pres hcI hf hCst
      have hEst : c ∉ stageE t1 := by
        unfold stageE
        exact replaceAll_pres (replaceAll_pres (replaceAll_pres ht1 hfa) hfa) hRVfa
      cases hfa2 : faLoopF fuel (stageE t1) with
      | none => rw [hfa2] at h; dsimp only at h; simp at h
      | some t2 =>
        rw [hfa2] at h; dsimp only at h
        have ht2 : c ∉ t2 := faLoopF_pres hcI hcN hfa2 hEst
        have hGst : c ∉ stageG t2 := by
          unfold stageG
          exact replaceAll_pres ht2 hIZ
        cases hi2 : iLoopF fuel (stageG t2) with
        | none => rw [hi2] at h; dsimp only at h; simp at h
        | some t3 =>
          rw [hi2] at h; dsimp only at h
          have ht3 : c ∉ t3 := iLoopF_pres hcI hcV hi2 hGst
          have hIst : c ∉ stageI t3 := by
            unfold stageI
            exact replaceAll_pres ht3 hJustZ
          cases hz2 : zLoopF fuel (stageI t3) with
          | none => rw [hz2] at h; dsimp only at h; simp at h
          | some t4 =>
            rw [hz2] at h; dsimp only at h
            have ht4 : c ∉ t4 := zLoopF_pres hcR hcV hz2 hIst
            rw [Option.some.injEq] at h
            subst h
            intro hmem
            have h5 : c ∈ cleanupFinal (cleanupMatra t4) := jsTrim_mem hmem
            exact cleanupFinal_pres (cleanupMatra_pres ht4 hms hcC) hcV hcR hcS h5

/-- Every legacy marker sequence contains a character that the transcoder
kills and never reinserts. -/
theorem hasMarker_eq_false {r : List Char}
    (hdead : ∀ c ∈ deadChars, c ∉ r) : hasMarker r = false := by
  by_contra hcon
  have h1 : hasMarker r = true := by
    cases h : hasMarker r with
    | false => exact absurd h hcon
    | true => rfl
  unfold hasMarker at h1
  rw [List.any_eq_true] at h1
  obtain ⟨m, hm, hcont⟩ := h1
  have hdc : ∀ m ∈ krutiMarkers, ∃ c ∈ m, c ∈ deadChars := by decide
  obtain ⟨c, hcm, hcd⟩ := hdc m hm
  exact hdead c hcd (containsSub_mem hcont c hcm)

theorem isLikelyKrutidev_eq_false_of_no_marker {r : List Char}
    (h : hasMarker r = false) : isLikelyKrutidev r = false := by
  unfold isLikelyKrutidev
  by_cases h1 : r.length < 5
  · rw [if_pos h1]
  · rw [if_neg h1]
    by_cases h2 : 3 * r.length < 10 * devanagariCount r
    · rw [if_pos h2]
    · rw [if_neg h2]; exact h

set_option maxRecDepth 10000 in
set_option maxHeartbeats 1000000 in
/-- The classifier never fires on a transcoded output. -/
theorem isLikelyKrutidev_output_false {fuel : Nat} {s r : List Char}
    (h : krutidevToUnicodeF fuel s = some r) : isLikelyKrutidev r = false := by
  have hkill : ∀ c ∈ deadChars, killsChar c MAIN_MAP = true := by
    intro c hc
    have hall : deadChars.all (fun c => killsChar c MAIN_MAP) = true := by decide
    rw [List.all_eq_true] at hall
    exact hall c hc
  have hins : ∀ c ∈ deadChars, c ∉ insertedChars := by decide
  refine isLikelyKrutidev_eq_false_of_no_marker (hasMarker_eq_false ?_)
  intro c hc
  exact krutidevToUnicodeF_noChar (hkill c hc) (hins c hc) h


/-!  ## Loop fixpoint helpers for the divergence proofs  -/

theorem fLoopF_fix {t : List Char} (h : fStep t = none) (fuel : Nat) :
    fLoopF (fuel + 1) t = some t := by
  rw [fLoopF, h]

theorem faLoopF_fix {t : List Char} (h : faStep t = none) (fuel : Nat) :
    faLoopF (fuel + 1) t = some t := by
  rw [faLoopF, h]

theorem iLoopF_fix {t : List Char} (h : iStep t = none) (fuel : Nat) :
    iLoopF (fuel + 1) t = some t := by
  rw [iLoopF, h]

/-- A reph-relocation iteration that leaves the string unchanged while the
regex still matches makes the loop spin forever: every fuel is exhausted. -/
theorem zLoopF_stuck {t : List Char} (h : zStep t = some t) :
    ∀ fuel, zLoopF fuel t = none := by
  intro fuel
  induction fuel with
  | zero => rfl
  | succ n ih =>
    rw [zLoopF, h]
    exact ih

set_option maxRecDepth 10000 in
theorem krutidev_stuck_kZ :
    ∀ fuel, krutidevToUnicodeF fuel ("kZ".data) = none := by
  intro fuel
  cases fuel with
  | zero => decide
  | succ n =>
    have hA : stageC (applyRules MAIN_MAP (stagePre ("kZ".data))) = "ाZ".data := by
      decide
    unfold krutidevToUnicodeF
    rw [if_neg (by decide), hA, fLoopF_fix (by decide) n]
    dsimp only
    rw [show stageE ("ाZ".data) = "ाZ".data from by decide,
      faLoopF_fix (by decide) n]
    dsimp only
    rw [show stageG ("ाZ".data) = "ाZ".data from by decide,
      iLoopF_fix (by decide) n]
    dsimp only
    rw [show stageI ("ाZ".data) = "ाZ".data from by decide,
      zLoopF_stuck (by decide) (n + 1)]

set_option maxRecDepth 10000 in
theorem krutidev_stuck_kkZdk :
    ∀ fuel, krutidevToUnicodeF fuel ("kkZ dk".data) = none := by
  intro fuel
  cases fuel with
  | zero => decide
  | succ n =>
    have hA : stageC (applyRules MAIN_MAP (stagePre ("kkZ dk".data))) = "ााZ का".data := by
      decide
    unfold krutidevToUnicodeF
    rw [if_neg (by decide), hA, fLoopF_fix (by decide) n]
    dsimp only
    rw [show stageE ("ााZ का".data) = "ााZ का".data from by decide]
    rw [faLoopF_fix (by decide) n]
    dsimp only
    rw [show stageG ("ााZ का".data) = "ााZ का".data from by decide,
      iLoopF_fix (by decide) n]
    dsimp only
    rw [show stageI ("ााZ का".data) = "ााZ का".data from by decide,
      zLoopF_stuck (by decide) (n + 1)]

/-!  ## Claim theorems (transcoder)  -/

/-- C1 — the claim says `krutidevToUnicode` terminates for every input,
including inputs where a `Z` marker is preceded only by vowel signs back to
the start of the string.  It does not: on `"kZ"` the dictionary produces the
vowel sign `ा` followed by `Z`, the leftward walk runs past the start of the
string (JavaScript `t[-1]` is `undefined`, which string concatenation turns
into the nine characters `undefined`), the rewritten pattern is not found,
the replace is a no-op, and the regex loop repeats on an unchanged string
forever.  The model returns `none` for every fuel. -/
theorem krutidevToUnicode_diverges_on_reph_walk :
    KrutidevDiverges ("kZ".data) :=
  krutidev_stuck_kZ

/-- C2, counterexample — idempotence as stated fails: on the classifier-
accepted input `"kkZ dk"` (marker `dk` present, no Devanagari), the inner
call `autoconvert("kkZ dk")` never returns, because the reph-relocation
loop gets stuck exactly as in C1; so `autoconvert(autoconvert(s))` is not
equal to `autoconvert(s)` for this `s` — neither side produces a value. -/
theorem autoConvert_diverges_not_idempotent :
    isLikelyKrutidev ("kkZ dk".data) = true ∧
      AutoConvertDiverges ("kkZ dk".data) := by
  refine ⟨by decide, ?_⟩
  intro fuel
  unfold autoConvertF
  rw [if_neg (by decide), if_pos (by decide)]
  exact krutidev_stuck_kkZdk fuel

/-- C2, amended — on every input where `autoconvert` terminates, a second
application returns the result unchanged: the transcoded output can retain
no legacy marker sequence (every marker contains a character the dictionary
kills and no later pass reinserts), so re-classification returns false and
the second `autoconvert` is the identity. -/
theorem autoConvert_idempotent_on_termination
    (fuel fuel2 : Nat) (s r : List Char)
    (h : autoConvertF fuel s = some r) : autoConvertF fuel2 r = some r := by
  unfold autoConvertF at h
  by_cases hemp : s.isEmpty = true
  · rw [if_pos hemp, Option.some.injEq] at h
    subst h
    unfold autoConvertF
    rw [if_pos hemp]
  · rw [if_neg hemp] at h
    by_cases hlik : isLikelyKrutidev s = true
    · rw [if_pos hlik] at h
      have hfalse : isLikelyKrutidev r = false := isLikelyKrutidev_output_false h
      unfold autoConvertF
      by_cases hre : r.isEmpty = true
      · rw [if_pos hre]
      · rw [if_neg hre, hfalse]
        simp
    · rw [if_neg hlik, Option.some.injEq] at h
      subst h
      unfold autoConvertF
      rw [if_neg hemp, if_neg hlik]

set_option maxRecDepth 10000 in
/-- C2, witness — `autoconvert` converts the Krutidev word for "office"
and a second application leaves the Unicode result unchanged. -/
theorem autoConvert_idempotent_on_termination_witness :
    autoConvertF 64 ("dk;kZy;".data) = some ("कार्यालय".data) ∧
      autoConvertF 64 ("कार्यालय".data) = some ("कार्यालय".data) :=
  ⟨by decide, autoConvert_idempotent_on_termination 64 64 ("dk;kZy;".data) ("कार्यालय".data) (by decide)⟩

/-- C3 — a string whose Devanagari fraction strictly exceeds 30 percent is
classified as already converted, regardless of any marker content: the
fraction test precedes the marker test and returns false. -/
theorem isLikelyKrutidev_devanagari_fraction (t : List Char)
    (h : 3 * t.length < 10 * devanagariCount t) :
    isLikelyKrutidev t = false := by
  unfold isLikelyKrutidev
  by_cases h1 : t.length < 5
  · rw [if_pos h1]
  · rw [if_neg h1, if_pos h]

/-- C3, witness — a string that is two thirds Devanagari and still contains
the legacy marker `dk` is classified false. -/
theorem isLikelyKrutidev_devanagari_fraction_witness :
    hasMarker ("dk कककककक".data) = true ∧
      isLikelyKrutidev ("dk कककककक".data) = false :=
  ⟨by decide, isLikelyKrutidev_devanagari_fraction _ (by decide)⟩

/-- C10 — every string shorter than five characters (the empty string
included) is classified as not legacy-encoded, and `autoConvert` returns it
unchanged, whatever its content. -/
theorem short_input_not_converted (fuel : Nat) (s : List Char)
    (h : s.length < 5) :
    isLikelyKrutidev s = false ∧ autoConvertF fuel s = some s := by
  have hlik : isLikelyKrutidev s = false := by
    unfold isLikelyKrutidev
    rw [if_pos h]
  refine ⟨hlik, ?_⟩
  unfold autoConvertF
  by_cases hemp : s.isEmpty = true
  · rw [if_pos hemp]
  · rw [if_neg hemp, hlik]
    simp

/-- C10, witness — `"ugha"` is itself one of the legacy marker sequences,
yet at four characters it is classified false and returned unchanged. -/
theorem short_input_not_converted_witness :
    hasMarker ("ugha".data) = true ∧
      isLikelyKrutidev ("ugha".data) = false ∧
      autoConvertF 0 ("ugha".data) = some ("ugha".data) :=
  ⟨by decide, (short_input_not_converted 0 ("ugha".data) (by decide)).1,
    (short_input_not_converted 0 ("ugha".data) (by decide)).2⟩


set_option maxRecDepth 10000 in
/-- C4, counterexample — the claim says a transcoded output never contains a
virama immediately followed by an independent vowel.  The cleanup pass only
rewrites virama before the *dependent* signs, so `transcode("Dvk")` returns
`क्आ`, which contains virama immediately before the independent vowel `आ`. -/
theorem transcode_retains_virama_artifact :
    krutidevToUnicodeF 64 ("Dvk".data) = some ("क्आ".data) ∧
      hasViramaArtifact ("क्आ".data) = true :=
  ⟨by decide, by decide⟩

set_option maxRecDepth 10000 in
/-- C4, amended — the final cleanup is a single textual pass per pattern,
not a fixpoint, and the virama-before-sign rule rewrites to sign-plus-comma:
every by-product kind can survive into the returned string, and the pass can
insert comma characters that were in no input.  Concretely: a doubled virama
survives `transcode("~~~")`, a virama before a dependent sign survives
`transcode("~~f")` (with an inserted comma), a virama before a space
survives `transcode("~~~~ A")`, and `transcode("Ds")` returns `के,` whose
comma comes from the cleanup itself. -/
theorem transcode_cleanup_single_pass_artifacts :
    (krutidevToUnicodeF 64 ("~~~".data) = some ("््".data) ∧
      hasViramaArtifact ("््".data) = true) ∧
    (krutidevToUnicodeF 64 ("~~f".data) = some ("्ि,".data) ∧
      hasViramaArtifact ("्ि,".data) = true) ∧
    (krutidevToUnicodeF 64 ("~~~~ A".data) = some ("् ।".data) ∧
      hasViramaArtifact ("् ।".data) = true) ∧
    (krutidevToUnicodeF 64 ("Ds".data) = some ("के,".data) ∧
      ',' ∈ "के,".data ∧ ',' ∉ "Ds".data) := by
  refine ⟨⟨by decide, by decide⟩, ⟨by decide, by decide⟩,
    ⟨by decide, by decide⟩, by decide, by decide, by decide⟩

theorem jsOrEmpty_some (s : String) : jsOrEmpty (some s) = s := by
  show (if s = "" then "" else s) = s
  by_cases h : s = ""
  · rw [if_pos h, h]
  · rw [if_neg h]

/-- C5 — `extractTable` zips each row's cells against the headers
positionally: the record has one entry per header, in header order, and a
position beyond the end of the row maps its header to the empty string; the
construction is total, so no index error can occur. -/
theorem extractTable_positional_zip :
    (∀ c0 c1 : String, rowToRecord ["A", "B", "C"] [c0, c1] =
      [("A", c0), ("B", c1), ("C", "")]) ∧
    (∀ (headers cells : List String) (i : Nat), cells.length ≤ i →
      (rowToRecord headers cells).get? i =
        (headers.get? i).map (fun h => (h, ""))) ∧
    (∀ headers cells : List String,
      (rowToRecord headers cells).length = headers.length) := by
  refine ⟨?_, ?_, ?_⟩
  · intro c0 c1
    simp [rowToRecord, List.enum, List.enumFrom, jsOrEmpty_some]
    rfl
  · intro headers cells i h
    unfold rowToRecord
    rw [List.get?_eq_getElem?, List.getElem?_map, List.getElem?_enum,
      Option.map_map, List.get?_eq_getElem?]
    have hnone : cells[i]? = none := by
      rw [← List.get?_eq_getElem?]
      exact List.get?_eq_none.mpr h
    cases hh : headers[i]? with
    | none => rfl
    | some hd => simp [hnone, jsOrEmpty, Function.comp]
  · intro headers cells
    simp [rowToRecord]

/-- C5, witness — headers `A, B, C` against a two-cell row give the third
header the empty string, and a one-cell row still yields `("C", "")` at
index two. -/
theorem extractTable_positional_zip_witness :
    rowToRecord ["A", "B", "C"] ["x", "y"] =
      [("A", "x"), ("B", "y"), ("C", "")] ∧
      (rowToRecord ["A", "B", "C"] ["x"]).get? 2 = some ("C", "") := by
  constructor
  · exact extractTable_positional_zip.1 "x" "y"
  · rw [extractTable_positional_zip.2.1 ["A", "B", "C"] ["x"] 2 (by decide)]
    rfl

/-- C6 — a timeline entry with no heading, no preformatted remarks and less
than six characters of (trimmed) text is dropped, while one whose only
content is a plain text body longer than five characters is retained, its
first 300 characters recorded as raw text. -/
theorem workflow_entry_pruning :
    (∀ li : LiData, li.h4 = none → li.preText = none →
      (jsTrimStr li.fullText).length < 6 → mkWorkflowItem li = none) ∧
    (∀ li : LiData, li.h4 = none → li.preText = none →
      5 < (jsTrimStr li.fullText).length →
      mkWorkflowItem li = some
        { status := none, process_name := none, start_date := li.startDate,
          end_date := li.endDate, assigned_to := li.assignedTo,
          remarks := none, detail_content := li.detailText,
          raw_text := some (strTake (jsTrimStr li.fullText) 300),
          remarks_original := none, raw_text_original := none }) := by
  constructor
  · intro li h4 hpre hlen
    unfold mkWorkflowItem
    rw [h4, hpre]
    have hn : ¬ (5 < (jsTrimStr li.fullText).length) := by omega
    simp [truthy, hn]
  · intro li h4 hpre hlen
    unfold mkWorkflowItem
    rw [h4, hpre]
    have hne : ¬ (strTake (jsTrimStr li.fullText) 300 = "") := by
      intro he
      have hd : List.take 300 (jsTrimStr li.fullText).data = [] :=
        congrArg String.data he
      have hlen2 : (List.take 300 (jsTrimStr li.fullText).data).length = 0 := by
        rw [hd]; rfl
      rw [List.length_take] at hlen2
      have hgt : 5 < (jsTrimStr li.fullText).data.length := hlen
      omega
    simp [truthy, hlen, hne]

/-- C6, witness — a ten-character plain body is retained as raw text; a
three-character one is dropped. -/
theorem workflow_entry_pruning_witness :
    mkWorkflowItem { fullText := "abcdefghij" } =
      some { raw_text := some "abcdefghij" } ∧
      mkWorkflowItem { fullText := "abc" } = none := by
  constructor
  · rw [workflow_entry_pruning.2 { fullText := "abcdefghij" } rfl rfl (by decide)]
    decide
  · exact workflow_entry_pruning.1 { fullText := "abc" } rfl rfl (by decide)

/-- C7 — the download wait signals completion only at a polling tick whose
directory listing contains a fresh file (absent from the pre-download
snapshot and not an in-progress file) and no filename with the in-progress
suffix; every earlier tick failed the test, and a trace with no satisfying
tick produces no signal (the bounded timeout elapses). -/
theorem waitForDownload_completion_signal :
    (∀ (before : List String) (trace : List (List String)) (i : Nat),
      waitForDownloadModel before trace = some i →
      hasNewFile before (trace.getD i []) = true ∧
      hasCrdownload (trace.getD i []) = false ∧
      ∀ j, j < i → downloadComplete before (trace.getD j []) = false) ∧
    (∀ (before : List String) (trace : List (List String)),
      (∀ cur ∈ trace, downloadComplete before cur = false) →
      waitForDownloadModel before trace = none) := by
  constructor
  · intro before trace
    induction trace with
    | nil => intro i h; simp [waitForDownloadModel] at h
    | cons cur rest ih =>
      intro i h
      rw [waitForDownloadModel] at h
      by_cases hc : downloadComplete before cur = true
      · rw [if_pos hc, Option.some.injEq] at h
        subst h
        have hclean := hc
        unfold downloadComplete at hclean
        rw [Bool.and_eq_true_iff] at hclean
        refine ⟨by simpa using hclean.1, ?_, ?_⟩
        · have := hclean.2
          simp at this
          simpa using this
        · intro j hj
          omega
      · rw [if_neg hc] at h
        cases hrec : waitForDownloadModel before rest with
        | none => rw [hrec] at h; simp at h
        | some i' =>
          rw [hrec] at h
          rw [Option.map, Option.some.injEq] at h
          subst h
          obtain ⟨h1, h2, h3⟩ := ih i' hrec
          refine ⟨by simpa using h1, by simpa using h2, ?_⟩
          intro j hj
          cases j with
          | zero =>
            simpa using Bool.eq_false_iff.mpr hc
          | succ j' =>
            have := h3 j' (by omega)
            simpa using this
  · intro before trace
    induction trace with
    | nil => intro _; rfl
    | cons cur rest ih =>
      intro hall
      rw [waitForDownloadModel]
      have hcur : downloadComplete before cur = false :=
        hall cur (List.mem_cons_self _ _)
      rw [if_neg (by simp [hcur])]
      rw [ih (fun x hx => hall x (List.mem_cons_of_mem _ hx))]
      rfl

/-- C7, witness — the spec's scenario: with snapshot `a.pdf` the trace that
first shows `b.pdf.crdownload` and then `b.pdf` signals at the second tick;
the first tick fails the test and the final listing has a fresh file and no
in-progress suffix. -/
theorem waitForDownload_completion_signal_witness :
    hasNewFile ["a.pdf"] ["a.pdf", "b.pdf"] = true ∧
      hasCrdownload ["a.pdf", "b.pdf"] = false ∧
      downloadComplete ["a.pdf"] ["a.pdf", "b.pdf.crdownload"] = false := by
  have h := waitForDownload_completion_signal.1 ["a.pdf"]
    [["a.pdf", "b.pdf.crdownload"], ["a.pdf", "b.pdf"]] 1 (by decide)
  refine ⟨by simpa using h.1, by simpa using h.2.1, ?_⟩
  have := h.2.2 0 (by omega)
  simpa using this


theorem bpConvertRemarks_spec (fuel : Nat) (it it1 : WorkflowItem)
    (h : bpConvertRemarks fuel it = some it1) :
    (it1.remarks ≠ it.remarks → it1.remarks_original = it.remarks) ∧
    it1.raw_text = it.raw_text ∧ it1.raw_text_original = it.raw_text_original := by
  unfold bpConvertRemarks at h
  repeat' split at h
  all_goals try cases h
  all_goals simp_all

theorem bpConvertRawText_spec (fuel : Nat) (it1 it2 : WorkflowItem)
    (h : bpConvertRawText fuel it1 = some it2) :
    (it2.raw_text ≠ it1.raw_text → it2.raw_text_original = it1.raw_text) ∧
    it2.remarks = it1.remarks ∧ it2.remarks_original = it1.remarks_original := by
  unfold bpConvertRawText at h
  repeat' split at h
  all_goals try cases h
  all_goals simp_all

theorem bpConvertItem_spec (fuel : Nat) (it it2 : WorkflowItem)
    (h : bpConvertItem fuel it = some it2) :
    (it2.remarks ≠ it.remarks → it2.remarks_original = it.remarks) ∧
    (it2.raw_text ≠ it.raw_text → it2.raw_text_original = it.raw_text) := by
  unfold bpConvertItem at h
  cases h1 : bpConvertRemarks fuel it with
  | none => rw [h1] at h; simp at h
  | some it1 =>
    rw [h1] at h
    dsimp only at h
    obtain ⟨ha, hb, _hc⟩ := bpConvertRemarks_spec fuel it it1 h1
    obtain ⟨hd, he, hf⟩ := bpConvertRawText_spec fuel it1 it2 h
    constructor
    · intro hneq
      rw [hf]
      exact ha (fun heq => hneq (he.trans heq))
    · intro hneq
      have hg := hd (fun heq => hneq (heq.trans hb))
      rw [hg, hb]

theorem modalConvertItem_spec (fuel : Nat) (it it2 : WorkflowItem)
    (h : modalConvertItem fuel it = some it2) :
    it2.remarks_original = it.remarks_original ∧ it2.raw_text = it.raw_text := by
  unfold modalConvertItem at h
  repeat' split at h
  all_goals try cases h
  all_goals simp_all

theorem ccmsConvertItem_spec (fuel : Nat) (it it2 : WorkflowItem)
    (h : ccmsConvertItem fuel it = some it2) :
    it2.remarks_original = it.remarks_original ∧ it2.raw_text = it.raw_text := by
  unfold ccmsConvertItem at h
  repeat' split at h
  all_goals try cases h
  all_goals simp_all

set_option maxRecDepth 10000 in
/-- C8, counterexample — the proposal-modal extractor's conversion pass
rewrites a Krutidev remark in place: the remark's value changes, yet the
returned entry's `remarks_original` is still empty, so the original is not
preserved alongside the converted value as the claim states for every
extractor. -/
theorem modal_convert_drops_original :
    modalConvertItem 64 { remarks := some "dk;kZy;" } =
      some { remarks := some "कार्यालय" } ∧
      some "कार्यालय" ≠ some "dk;kZy;" ∧
      WorkflowItem.remarks_original { remarks := some "कार्यालय" } = none :=
  ⟨by decide, by decide, rfl⟩

/-- C8, amended — only the task-list extractor preserves originals: its pass
records `remarks_original` (resp. `raw_text_original`) whenever it changes a
remark (resp. raw text), while the proposal-modal and CCMS passes convert
`remarks` in place, never set `remarks_original`, and never touch
`raw_text`. -/
theorem workflow_convert_pass_behaviour (fuel : Nat) (it it2 : WorkflowItem) :
    (bpConvertItem fuel it = some it2 → it2.remarks ≠ it.remarks →
      it2.remarks_original = it.remarks) ∧
    (bpConvertItem fuel it = some it2 → it2.raw_text ≠ it.raw_text →
      it2.raw_text_original = it.raw_text) ∧
    (modalConvertItem fuel it = some it2 →
      it2.remarks_original = it.remarks_original ∧ it2.raw_text = it.raw_text) ∧
    (ccmsConvertItem fuel it = some it2 →
      it2.remarks_original = it.remarks_original ∧ it2.raw_text = it.raw_text) :=
  ⟨fun h => (bpConvertItem_spec fuel it it2 h).1,
   fun h => (bpConvertItem_spec fuel it it2 h).2,
   fun h => modalConvertItem_spec fuel it it2 h,
   fun h => ccmsConvertItem_spec fuel it it2 h⟩

set_option maxRecDepth 10000 in
/-- C8, witness — converting the same Krutidev remark through the task-list
pass records the original, while the modal pass leaves `remarks_original`
empty and `raw_text` untouched. -/
theorem workflow_convert_pass_behaviour_witness :
    WorkflowItem.remarks_original
        { remarks := some "कार्यालय", remarks_original := some "dk;kZy;" } =
      WorkflowItem.remarks { remarks := some "dk;kZy;" } ∧
    (WorkflowItem.remarks_original { remarks := some "कार्यालय" } =
      WorkflowItem.remarks_original { remarks := some "dk;kZy;" } ∧
     WorkflowItem.raw_text { remarks := some "कार्यालय" } =
      WorkflowItem.raw_text { remarks := some "dk;kZy;" }) := by
  constructor
  · exact (workflow_convert_pass_behaviour 64 { remarks := some "dk;kZy;" }
      { remarks := some "कार्यालय", remarks_original := some "dk;kZy;" }).1
      (by decide) (by decide)
  · exact (workflow_convert_pass_behaviour 64 { remarks := some "dk;kZy;" }
      { remarks := some "कार्यालय" }).2.2.1 (by decide)

/-- C9, counterexample — the orchestrator's result does not carry what
`downloadAttachments` would produce: even when that stage would return a
panel record and a confirmed file, the returned `attachments` field is the
hard-coded skip stub with no panels and no files. -/
theorem runFullWorkflow_ignores_downloadAttachments :
    BPOutcome.attachments?
        (runFullWorkflowModel
          { tableRawRows := [["1", "HRDA/001"]],
            heading := some "HRDA/001",
            downloadResult :=
              ⟨[⟨"Documents", "Site Plan", "01/01/2024", true⟩],
                ["b.pdf"], false⟩ }) = some ⟨[], [], true⟩ ∧
    (⟨[], [], true⟩ : AttachResult) ≠
      ⟨[⟨"Documents", "Site Plan", "01/01/2024", true⟩], ["b.pdf"], false⟩ :=
  ⟨by decide, by decide⟩

/-- C9, amended — `runFullWorkflow` composes navigation, filtering, the
table wait, table extraction, row opening, heading and workflow extraction,
but its attachment stage is disabled: on every successful run the aggregate
response carries the literal stub `{ panels: [], files: [], _skipped: true }`
in `attachments`, and `downloadAttachments` is never invoked. -/
theorem runFullWorkflow_returns_attachment_stub (env : BPEnv)
    (h1 : env.hasPage = true) (h2 : env.navOk = true) (h3 : env.filterOk = true)
    (h4 : env.rowsAppear = true) (h5 : env.openOk = true) :
    runFullWorkflowModel env =
      .completed env.heading env.totalCases
        (extractTableModel env.tableHeadersFound env.tableRawRows).rows.head?
        (extractTableModel env.tableHeadersFound env.tableRawRows).rows
        env.workflow ⟨[], [], true⟩ := by
  unfold runFullWorkflowModel
  rw [h1, h2, h3, h4, h5]
  simp

/-- C9, witness — a successful run over one raw row returns the aggregate
with the skip stub in its attachments field. -/
theorem runFullWorkflow_returns_attachment_stub_witness :
    runFullWorkflowModel
        { tableRawRows := [["1", "F-2"]], heading := some "Sec Verification" } =
      .completed (some "Sec Verification") none
        (some (rowToRecord defaultHeaders ["1", "F-2"]))
        [rowToRecord defaultHeaders ["1", "F-2"]] [] ⟨[], [], true⟩ := by
  rw [runFullWorkflow_returns_attachment_stub _ rfl rfl rfl rfl rfl]
  rfl


end BPAuto
